import Mathlib

/-!
Verification of the road_runner run planning and execution engine.

This file shallowly embeds the data model and the operations of the
`road_runner` Python package (src/road_runner/models.py, safety.py,
adapters.py, artifacts.py, runner.py) as executable Lean definitions and
proves properties about them.  Python dictionaries are embedded as
association lists with Python's insertion-order and replace-in-place
update semantics; Python exceptions are embedded as `Except`; Python
floats are embedded as exact rationals (the values exercised by the
engine are decimal literals, which rationals represent exactly).
-/

namespace RoadRunner

/-- Errors of the exception hierarchy in exceptions.py:
`ValidationError`, `SafetyViolationError` (a specialization of
`ValidationError`) and `AdapterExecutionError`. -/
inductive Err where
  | validation (msg : String)
  | safety (msg : String)
  | execution (msg : String)
deriving Repr, DecidableEq

/-- `true` exactly when an `Except` computation succeeded. -/
def exOk {α : Type} : Except Err α → Bool
  | .ok _ => true
  | .error _ => false

instance {α : Type} [DecidableEq α] : DecidableEq (Except Err α) := fun a b =>
  match a, b with
  | .ok x, .ok y =>
    match decEq x y with
    | isTrue h => isTrue (by rw [h])
    | isFalse h => isFalse (fun hh => h (by injection hh))
  | .error e1, .error e2 =>
    match decEq e1 e2 with
    | isTrue h => isTrue (by rw [h])
    | isFalse h => isFalse (fun hh => h (by injection hh))
  | .ok _, .error _ => isFalse (fun hh => by injection hh)
  | .error _, .ok _ => isFalse (fun hh => by injection hh)

/-- Dynamic Python values as they appear in flow/margin/policy configs:
integers, float literals (`vfloat m e` is the decimal literal m·10^(-e)),
booleans, strings, `None`, lists and mappings. -/
inductive Value where
  | vint (i : Int)
  | vfloat (m : Int) (e : Nat)
  | vbool (b : Bool)
  | vstr (s : String)
  | vnone
  | vlist (items : List Value)
  | vdict (entries : List (String × Value))
deriving Repr

mutual

/-- Structural equality test on dynamic values, mirroring Python `==` on
config data.  (Python's numeric cross-type equalities such as
`1 == 1.0` are not modelled; the engine only compares like-shaped
config literals, in `AdapterParameter.validate`'s allowed-set test.) -/
def Value.beq : Value → Value → Bool
  | .vint a, .vint b => a == b
  | .vfloat m1 e1, .vfloat m2 e2 => m1 == m2 && e1 == e2
  | .vbool a, .vbool b => a == b
  | .vstr a, .vstr b => a == b
  | .vnone, .vnone => true
  | .vlist a, .vlist b => Value.beqList a b
  | .vdict a, .vdict b => Value.beqDict a b
  | _, _ => false

/-- Elementwise equality of value lists (helper for `Value.beq`). -/
def Value.beqList : List Value → List Value → Bool
  | [], [] => true
  | x :: xs, y :: ys => Value.beq x y && Value.beqList xs ys
  | _, _ => false

/-- Elementwise equality of value mappings (helper for `Value.beq`). -/
def Value.beqDict : List (String × Value) → List (String × Value) → Bool
  | [], [] => true
  | (k1, x) :: xs, (k2, y) :: ys => k1 == k2 && Value.beq x y && Value.beqDict xs ys
  | _, _ => false

end

instance : BEq Value := ⟨Value.beq⟩

/-- Decimal digit string of a natural number (Python `str` on a
nonnegative integer). -/
def natStr (n : Nat) : String := Nat.repr n

/-- Python `str` on an integer. -/
def intStr (i : Int) : String :=
  if i < 0 then "-" ++ natStr i.natAbs else natStr i.natAbs

/-- Python `str` on the float literal m·10^(-e): digits with an embedded
decimal point, e.g. `str(0.001) = "0.001"` and `str(5.0) = "5.0"`. -/
def floatStr (m : Int) (e : Nat) : String :=
  let sign := if m < 0 then "-" else ""
  let ds := natStr m.natAbs
  if e = 0 then sign ++ ds ++ ".0"
  else
    let padded := if ds.length ≤ e then String.mk (List.replicate (e + 1 - ds.length) '0') ++ ds else ds
    sign ++ padded.take (padded.length - e) ++ "." ++ padded.drop (padded.length - e)

mutual

/-- Python `str()` on a dynamic value, as used when emitting command-line
arguments and environment variables.  (The rendering of nested
lists/mappings approximates Python's `repr`-based form; the engine only
stringifies scalars.) -/
def Value.pyStr : Value → String
  | .vint i => intStr i
  | .vfloat m e => floatStr m e
  | .vbool b => if b then "True" else "False"
  | .vstr s => s
  | .vnone => "None"
  | .vlist items => "[" ++ String.intercalate ", " (Value.pyStrList items) ++ "]"
  | .vdict _ => "<dict>"

/-- Helper for `Value.pyStr` on lists. -/
def Value.pyStrList : List Value → List String
  | [] => []
  | x :: xs => Value.pyStr x :: Value.pyStrList xs

end

/-- Value of an all-digits character list read in base 10. -/
def digitsVal (cs : List Char) : Nat :=
  cs.foldl (fun a c => a * 10 + (c.toNat - '0'.toNat)) 0

/-- Python `float(s)` on a string: optional surrounding whitespace, an
optional sign, then a decimal literal with an optional fractional part.
Returns `none` when the string does not parse (the cases Python accepts
beyond plain decimal literals — exponents, inf/nan — are not produced by
the engine's configs and are not modelled). -/
def parseFloat? (s : String) : Option ℚ :=
  let cs := ((s.toList.dropWhile Char.isWhitespace).reverse.dropWhile Char.isWhitespace).reverse
  let signed : ℚ × List Char :=
    match cs with
    | '+' :: r => (1, r)
    | '-' :: r => (-1, r)
    | r => (1, r)
  let sign := signed.1
  let body := signed.2
  let ip := body.takeWhile (fun c => c ≠ '.')
  let rest := body.dropWhile (fun c => c ≠ '.')
  match rest with
  | [] =>
    if ip ≠ [] ∧ ip.all Char.isDigit then some (sign * digitsVal ip) else none
  | '.' :: fp =>
    if (ip ≠ [] ∨ fp ≠ []) ∧ ip.all Char.isDigit ∧ fp.all Char.isDigit then
      some (sign * ((digitsVal ip : ℚ) + Rat.divInt (digitsVal fp) ((10 : Int) ^ fp.length)))
    else none
  | _ => none

/-- Python `float(value)` as used by `Bound.validate` and
`AdapterParameter.validate`: numbers and booleans coerce, numeric
strings parse, `None`, lists and mappings raise (modelled as `none`). -/
def Value.toFloat? : Value → Option ℚ
  | .vint i => some i
  | .vfloat m e => some (Rat.divInt m ((10 : Int) ^ e))
  | .vbool b => some (if b then 1 else 0)
  | .vstr s => parseFloat? s
  | .vnone => none
  | .vlist _ => none
  | .vdict _ => none

/-- Lookup in a Python-dict-like association list (`d.get(k)`). -/
def alookup {α : Type} : List (String × α) → String → Option α
  | [], _ => none
  | (k0, v0) :: rest, k => if k0 = k then some v0 else alookup rest k

/-- Python `d[k] = v` on an insertion-ordered dict: replace the value in
place when the key exists, else append the binding. -/
def pyInsert {α : Type} : List (String × α) → String → α → List (String × α)
  | [], k, v => [(k, v)]
  | (k0, v0) :: rest, k, v =>
    if k0 = k then (k0, v) :: rest else (k0, v0) :: pyInsert rest k v

/-- Python `d.update(kvs)`: sequential `d[k] = v` for each binding. -/
def pyUpdate {α : Type} (m : List (String × α)) (kvs : List (String × α)) : List (String × α) :=
  kvs.foldl (fun acc kv => pyInsert acc kv.1 kv.2) m

theorem alookup_pyInsert_self {α : Type} (m : List (String × α)) (k : String) (v : α) :
    alookup (pyInsert m k v) k = some v := by
  induction m with
  | nil => simp [pyInsert, alookup]
  | cons hd tl ih =>
    obtain ⟨k0, v0⟩ := hd
    by_cases h : k0 = k
    · simp [pyInsert, alookup, h]
    · simp [pyInsert, alookup, h, ih]

theorem alookup_pyInsert_ne {α : Type} (m : List (String × α)) (k k' : String) (v : α)
    (h : k' ≠ k) : alookup (pyInsert m k v) k' = alookup m k' := by
  induction m with
  | nil =>
    have h2 : ¬ (k = k') := fun hh => h hh.symm
    simp [pyInsert, alookup, h2]
  | cons hd tl ih =>
    obtain ⟨k0, v0⟩ := hd
    by_cases h0 : k0 = k
    · subst h0
      have h2 : ¬ (k0 = k') := fun hh => h hh.symm
      simp [pyInsert, alookup, h2]
    · simp [pyInsert, alookup, h0, ih]

theorem alookup_append {α : Type} (a b : List (String × α)) (k : String) :
    alookup (a ++ b) k = ((alookup a k).rec (alookup b k) (fun v => some v) : Option α) := by
  induction a with
  | nil => simp [alookup]
  | cons hd tl ih =>
    obtain ⟨k0, v0⟩ := hd
    by_cases h : k0 = k
    · simp [alookup, h]
    · simp [alookup, h, ih]

/-! ## models.py -/

/-- `FlowStep` (models.py): a named step with an adapter reference, fixed
parameters and per-key sweep value lists, both insertion-ordered. -/
structure FlowStep where
  name : String
  adapter : String
  parameters : List (String × Value)
  sweeps : List (String × List Value)
deriving Repr

/-- The ordered Cartesian product of a list of value lists, as produced
by `itertools.product`: the leftmost input varies slowest. -/
def prodAll {α : Type} : List (List α) → List (List α)
  | [] => [[]]
  | xs :: rest => List.flatten (xs.map (fun x => (prodAll rest).map (fun c => x :: c)))

/-- `FlowStep.expanded_parameters` (models.py): with no sweeps, the single
fixed parameter set; otherwise one parameter set per sweep combination,
each the fixed parameters updated with the swept key/value pairs of that
combination. -/
def FlowStep.expandedParameters (s : FlowStep) : List (List (String × Value)) :=
  if s.sweeps.isEmpty then [s.parameters]
  else
    let keys := s.sweeps.map (fun sw => sw.1)
    let combos := prodAll (s.sweeps.map (fun sw => sw.2))
    combos.map (fun combo => pyUpdate s.parameters (keys.zip combo))

/-- `FlowDefinition` (models.py). -/
structure FlowDefinition where
  metadata : List (String × Value)
  steps : List FlowStep
deriving Repr

/-- `TargetMargins` (models.py): a target's fixed values, sweeps, and the
optional opaque jitter mapping. -/
structure TargetMargins where
  fixed : List (String × Value)
  sweeps : List (String × List Value)
  jitter : Option (List (String × Value))
deriving Repr

/-- `MarginPoint` (models.py). -/
structure MarginPoint where
  identifier : String
  values : List (String × List (String × Value))
  seed : Int
deriving Repr

/-- `MarginProfile` (models.py). -/
structure MarginProfile where
  metadata : List (String × Value)
  global_seed : Option Int
  targets : List (String × TargetMargins)
deriving Repr

/-- A target's baseline values in `MarginProfile.expand_points`: a copy of
its fixed values, with a `"jitter"` entry added when the jitter mapping
is truthy (present and nonempty, Python `if target.jitter:`). -/
def baseTargetValues (t : TargetMargins) : List (String × Value) :=
  match t.jitter with
  | some js => if js.isEmpty then t.fixed else pyInsert t.fixed "jitter" (Value.vdict js)
  | none => t.fixed

/-- The per-target baseline built by the first loop of
`MarginProfile.expand_points`. -/
def baseValuesOf (p : MarginProfile) : List (String × List (String × Value)) :=
  p.targets.map (fun tv => (tv.1, baseTargetValues tv.2))

/-- The flattened sweep entries `(target, parameter, values)` collected by
`MarginProfile.expand_points`, in declaration order across targets. -/
def sweepEntriesOf (p : MarginProfile) : List (String × String × List Value) :=
  List.flatten (p.targets.map (fun tv => tv.2.sweeps.map (fun sw => (tv.1, sw.1, sw.2))))

/-- `values.setdefault(target, dict())[parameter] = chosen` on the nested
point-values mapping. -/
def setdefaultSet : List (String × List (String × Value)) → String → String → Value →
    List (String × List (String × Value))
  | [], tn, p, v => [(tn, [(p, v)])]
  | (n, inner) :: rest, tn, p, v =>
    if n = tn then (n, pyInsert inner p v) :: rest
    else (n, inner) :: setdefaultSet rest tn p v

/-- Overlay one sweep combination onto the baseline values: for each sweep
entry `(target, parameter, _)` paired with its chosen value, set
`values[target][parameter]`. -/
def applyCombo (base : List (String × List (String × Value)))
    (entries : List (String × String × List Value)) (combo : List Value) :
    List (String × List (String × Value)) :=
  (entries.zip combo).foldl (fun acc ec => setdefaultSet acc ec.1.1 ec.1.2.1 ec.2) base

/-- `MarginProfile.expand_points` (models.py): one `point-0` with the
baseline values when no sweeps are declared, else one point per Cartesian
combination of the flattened sweep entries, identified `point-<idx>` and
seeded `(global_seed or 0) + idx`. -/
def MarginProfile.expandPoints (p : MarginProfile) : List MarginPoint :=
  let base := baseValuesOf p
  let entries := sweepEntriesOf p
  if entries.isEmpty then [⟨"point-0", base, p.global_seed.getD 0⟩]
  else
    let combos := prodAll (entries.map (fun e => e.2.2))
    let baseSeed := p.global_seed.getD 0
    combos.enum.map (fun ic =>
      ⟨"point-" ++ natStr ic.1, applyCombo base entries ic.2, baseSeed + ic.1⟩)

/-- `Bound` (models.py): an optional minimum and maximum. -/
structure Bound where
  minimum : Option ℚ
  maximum : Option ℚ
deriving Repr

/-- `Bound.validate` (models.py): `None` returns without error; a value
that does not coerce to a number raises `ValidationError`; a numeric
value below a present minimum or above a present maximum raises
`SafetyViolationError`. -/
def Bound.validate (b : Bound) (name : String) (value : Value) : Except Err Unit :=
  match value with
  | .vnone => .ok ()
  | v =>
    match v.toFloat? with
    | none => .error (.validation (name ++ ": expected numeric value"))
    | some numeric =>
      if (match b.minimum with | some mn => decide (numeric < mn) | none => false) then
        .error (.safety (name ++ ": value below minimum"))
      else if (match b.maximum with | some mx => decide (mx < numeric) | none => false) then
        .error (.safety (name ++ ": value above maximum"))
      else .ok ()

/-- `SafetyPolicy` (models.py). -/
structure SafetyPolicy where
  metadata : List (String × Value)
  avt_bounds : List (String × Bound)
  behavior : List (String × Value)
deriving Repr

/-- Elementwise bound validation of a value list (the list/tuple branch of
`SafetyPolicy.validate_value`). -/
def validateEach (b : Bound) (name : String) : List Value → Except Err Unit
  | [] => .ok ()
  | item :: rest =>
    match b.validate name item with
    | .ok _ => validateEach b name rest
    | .error e => .error e

/-- `SafetyPolicy.validate_value` (models.py): a name with no registered
bound passes; a list or tuple value is validated elementwise; any other
value is validated directly against the bound. -/
def SafetyPolicy.validateValue (p : SafetyPolicy) (name : String) (value : Value) :
    Except Err Unit :=
  match alookup p.avt_bounds name with
  | none => .ok ()
  | some bound =>
    match value with
    | .vlist items => validateEach bound name items
    | v => bound.validate name v

/-! ## Supporting lemmas on the Cartesian product and dict updates -/

theorem prodAll_length {α : Type} (ls : List (List α)) :
    (prodAll ls).length = (ls.map List.length).prod := by
  induction ls with
  | nil => simp [prodAll]
  | cons xs rest ih =>
    simp only [prodAll, List.length_flatten, List.map_map, List.map_cons, List.prod_cons]
    have hconst : (List.map (List.length ∘ fun x => (prodAll rest).map (fun c => x :: c)) xs)
        = List.map (fun _ => (prodAll rest).length) xs := by
      apply List.map_congr_left
      intro x _
      simp
    rw [hconst, List.map_const', List.sum_replicate, smul_eq_mul, ih]

theorem length_of_mem_prodAll {α : Type} (ls : List (List α)) (c : List α)
    (hc : c ∈ prodAll ls) : c.length = ls.length := by
  induction ls generalizing c with
  | nil =>
    simp [prodAll] at hc
    simp [hc]
  | cons xs rest ih =>
    simp only [prodAll, List.mem_flatten, List.mem_map] at hc
    obtain ⟨l, ⟨x, _, hl⟩, hcl⟩ := hc
    subst hl
    simp only [List.mem_map] at hcl
    obtain ⟨c0, hc0, hcc⟩ := hcl
    subst hcc
    simp [ih c0 hc0]

theorem pyUpdate_cons {α : Type} (m : List (String × α)) (kv : String × α)
    (rest : List (String × α)) :
    pyUpdate m (kv :: rest) = pyUpdate (pyInsert m kv.1 kv.2) rest := rfl

theorem alookup_pyUpdate_not_mem {α : Type} (kvs m : List (String × α)) (k : String)
    (h : k ∉ kvs.map (fun kv => kv.1)) : alookup (pyUpdate m kvs) k = alookup m k := by
  induction kvs generalizing m with
  | nil => rfl
  | cons kv rest ih =>
    simp only [List.map_cons, List.mem_cons] at h
    push_neg at h
    rw [pyUpdate_cons, ih _ h.2, alookup_pyInsert_ne _ _ _ _ h.1]

theorem alookup_pyUpdate_mem {α : Type} (kvs m : List (String × α)) (k : String)
    (hnd : (kvs.map (fun kv => kv.1)).Nodup) (h : k ∈ kvs.map (fun kv => kv.1)) :
    alookup (pyUpdate m kvs) k = alookup kvs k := by
  induction kvs generalizing m with
  | nil => simp at h
  | cons kv rest ih =>
    simp only [List.map_cons, List.nodup_cons] at hnd
    simp only [List.map_cons, List.mem_cons] at h
    rw [pyUpdate_cons]
    by_cases hk : k = kv.1
    · subst hk
      rw [alookup_pyUpdate_not_mem _ _ _ hnd.1, alookup_pyInsert_self]
      simp [alookup]
    · have hkr : k ∈ rest.map (fun kv => kv.1) := by
        rcases h with h | h
        · exact absurd h.symm (fun hh => hk hh.symm)
        · exact h
      rw [ih _ hnd.2 hkr]
      have : ¬ (kv.1 = k) := fun hh => hk hh.symm
      simp [alookup, this]

theorem alookup_isSome_of_mem_keys {α : Type} (m : List (String × α)) (k : String)
    (h : k ∈ m.map (fun kv => kv.1)) : (alookup m k).isSome = true := by
  induction m with
  | nil => simp at h
  | cons kv rest ih =>
    simp only [List.map_cons, List.mem_cons] at h
    by_cases hk : kv.1 = k
    · simp [alookup, hk]
    · have : k ∈ rest.map (fun kv => kv.1) := by
        rcases h with h | h
        · exact absurd h.symm hk
        · exact h
      simp [alookup, hk, ih this]

/-! ## Claim C3: margin-point expansion -/

/-- The i-th sweep combination of a profile, in `itertools.product` order
(the order `expand_points` consumes them in). -/
def comboAt (p : MarginProfile) (i : Nat) : List Value :=
  (prodAll ((sweepEntriesOf p).map (fun e => e.2.2))).getD i []

/-- C3.  `MarginProfile.expand_points`: with no sweep entries it returns
exactly the single point `point-0` carrying the fixed/jitter baseline
with seed `global_seed or 0`; in general it returns exactly
∏ kᵢ points (kᵢ the sweep-entry sizes, flattened in declaration order
across targets), where point i is identified `point-<i>`, seeded
`(global_seed or 0) + i`, and carries the baseline with the i-th
Cartesian-product combination overlaid. -/
theorem expandPoints_spec (p : MarginProfile) :
    (sweepEntriesOf p = [] →
      p.expandPoints = [⟨"point-0", baseValuesOf p, p.global_seed.getD 0⟩])
  ∧ (p.expandPoints).length = ((sweepEntriesOf p).map (fun e => e.2.2.length)).prod
  ∧ ∀ i, i < (p.expandPoints).length →
      (p.expandPoints)[i]? =
        some ⟨"point-" ++ natStr i,
              applyCombo (baseValuesOf p) (sweepEntriesOf p) (comboAt p i),
              p.global_seed.getD 0 + i⟩ := by
  refine ⟨?_, ?_, ?_⟩
  · intro he
    simp [MarginProfile.expandPoints, he]
  · by_cases he : (sweepEntriesOf p).isEmpty
    · rw [List.isEmpty_iff] at he
      simp [MarginProfile.expandPoints, he, List.isEmpty_nil]
    · simp only [MarginProfile.expandPoints, he, if_neg, Bool.false_eq_true,
        not_false_iff, List.length_map, List.enum_length]
      rw [prodAll_length, List.map_map]
      rfl
  · intro i h
    by_cases he : (sweepEntriesOf p).isEmpty
    · rw [List.isEmpty_iff] at he
      rw [MarginProfile.expandPoints] at h ⊢
      simp only [he, List.isEmpty_nil, if_pos] at h ⊢
      have hi0 : i = 0 := by
        simp only [List.length_singleton] at h
        omega
      subst hi0
      have hc : comboAt p 0 = [] := by simp [comboAt, he, prodAll]
      rw [hc]
      have hac : applyCombo (baseValuesOf p) [] [] = baseValuesOf p := rfl
      have hid : "point-" ++ natStr 0 = "point-0" := by decide
      have hseed : p.global_seed.getD 0 + ((0 : Nat) : Int) = p.global_seed.getD 0 := by simp
      rw [hac, hid, hseed]
      simp
    · have he2 : ¬ ((sweepEntriesOf p).isEmpty = true) := he
      rw [MarginProfile.expandPoints] at h ⊢
      simp only [he2, if_neg, Bool.false_eq_true, not_false_iff,
        List.length_map, List.enum_length] at h ⊢
      rw [List.getElem?_map, List.getElem?_enum, List.getElem?_eq_getElem h]
      have hcombo : comboAt p i
          = (prodAll ((sweepEntriesOf p).map (fun e => e.2.2)))[i] := by
        simp [comboAt, List.getD_eq_getElem?_getD, List.getElem?_eq_getElem h]
      rw [hcombo]
      rfl

/-- Witness for C3 at a concrete sweep-free profile: the hypothesis of the
first conjunct is discharged and yields the single `point-0`. -/
def c3Profile : MarginProfile :=
  ⟨[], some 7, [("default", ⟨[("vcore_mv", Value.vint 950)], [], none⟩)]⟩

theorem expandPoints_spec_witness :
    c3Profile.expandPoints
      = [⟨"point-0", [("default", [("vcore_mv", Value.vint 950)])], 7⟩] :=
  ((expandPoints_spec c3Profile).1 rfl).trans rfl

/-! ## Claim C4: Bound.validate -/

/-- C4 (amended).  `Bound.validate`: `None` is skipped and passes; a
numeric value passes exactly when it is at or above any present minimum
and at or below any present maximum (an absent side never fails); every
other value that cannot be interpreted numerically fails validation. -/
theorem bound_validate_spec (b : Bound) (nm : String) (v : Value) :
    (v = Value.vnone → b.validate nm v = Except.ok ())
  ∧ (∀ q, v.toFloat? = some q →
      (b.validate nm v = Except.ok () ↔
        (∀ mn, b.minimum = some mn → mn ≤ q) ∧ (∀ mx, b.maximum = some mx → q ≤ mx)))
  ∧ (v ≠ Value.vnone → v.toFloat? = none → exOk (b.validate nm v) = false) := by
  refine ⟨?_, ?_, ?_⟩
  · intro hv
    subst hv
    rfl
  · intro q hq
    have hv : v ≠ Value.vnone := by
      intro hv
      subst hv
      simp [Value.toFloat?] at hq
    have hval : b.validate nm v =
        (match v.toFloat? with
         | none => Except.error (.validation (nm ++ ": expected numeric value"))
         | some numeric =>
           if (match b.minimum with | some mn => decide (numeric < mn) | none => false) then
             Except.error (.safety (nm ++ ": value below minimum"))
           else if (match b.maximum with | some mx => decide (mx < numeric) | none => false) then
             Except.error (.safety (nm ++ ": value above maximum"))
           else Except.ok ()) := by
      cases v <;> first | rfl | (exact absurd rfl hv)
    rw [hval, hq]
    constructor
    · intro hh
      constructor
      · intro mn hm
        by_contra hlt
        push_neg at hlt
        rw [hm] at hh
        simp [hlt] at hh
      · intro mx hm
        by_contra hlt
        push_neg at hlt
        rw [hm] at hh
        rcases hmin2 : b.minimum with _ | mn
        · rw [hmin2] at hh
          simp [hlt] at hh
        · rw [hmin2] at hh
          by_cases h1 : q < mn
          · simp [h1] at hh
          · simp [h1, hlt] at hh
    · rintro ⟨hlo, hhi⟩
      rcases hmin2 : b.minimum with _ | mn <;> rcases hmax2 : b.maximum with _ | mx
      · simp
      · have h2 : ¬ (mx < q) := not_lt_of_le (hhi mx hmax2)
        simp [h2]
      · have h1 : ¬ (q < mn) := not_lt_of_le (hlo mn hmin2)
        simp [h1]
      · have h1 : ¬ (q < mn) := not_lt_of_le (hlo mn hmin2)
        have h2 : ¬ (mx < q) := not_lt_of_le (hhi mx hmax2)
        simp [h1, h2]
  · intro hv hq
    have hval : b.validate nm v =
        (match v.toFloat? with
         | none => Except.error (.validation (nm ++ ": expected numeric value"))
         | some numeric =>
           if (match b.minimum with | some mn => decide (numeric < mn) | none => false) then
             Except.error (.safety (nm ++ ": value below minimum"))
           else if (match b.maximum with | some mx => decide (mx < numeric) | none => false) then
             Except.error (.safety (nm ++ ": value above maximum"))
           else Except.ok ()) := by
      cases v <;> first | rfl | (exact absurd rfl hv)
    rw [hval, hq]
    rfl

/-- Counterexample to C4 as stated: `None` has no numeric interpretation
yet `Bound.validate` accepts it (the early `value is None` return). -/
theorem bound_validate_none_passes :
    Bound.validate ⟨some 0, some 1⟩ "vcore_mv" Value.vnone = Except.ok ()
  ∧ Value.toFloat? Value.vnone = none := ⟨rfl, rfl⟩

/-- Witness for C4 at concrete inputs: an in-range numeric value passes
and a non-numeric string fails. -/
theorem bound_validate_spec_witness :
    Bound.validate ⟨some 900, some 1000⟩ "vcore_mv" (Value.vint 950) = Except.ok () :=
  ((bound_validate_spec ⟨some 900, some 1000⟩ "vcore_mv" (Value.vint 950)).2.1 950
    (by norm_num [Value.toFloat?])).mpr
    ⟨by intro mn hmn; injection hmn with h2; rw [← h2]; norm_num,
     by intro mx hmx; injection hmx with h2; rw [← h2]; norm_num⟩

/-! ## Claim C9: sweep values override fixed parameters -/

/-- The i-th sweep combination of a flow step, in `itertools.product`
order. -/
def stepComboAt (s : FlowStep) (i : Nat) : List Value :=
  (prodAll (s.sweeps.map (fun sw => sw.2))).getD i []

/-- C9.  In every invocation produced by `FlowStep.expanded_parameters`,
a key that is swept maps to the swept value of that invocation's
combination — the sweep overrides any fixed parameter of the same name
(and the key is always present). -/
theorem expandedParameters_sweep_overrides (s : FlowStep)
    (hnd : (s.sweeps.map (fun sw => sw.1)).Nodup)
    (k : String) (hk : k ∈ s.sweeps.map (fun sw => sw.1))
    (i : Nat) (h : i < s.expandedParameters.length) :
    alookup (s.expandedParameters.getD i []) k
      = alookup ((s.sweeps.map (fun sw => sw.1)).zip (stepComboAt s i)) k
  ∧ (alookup ((s.sweeps.map (fun sw => sw.1)).zip (stepComboAt s i)) k).isSome = true := by
  have hne : ¬ (s.sweeps.isEmpty = true) := by
    intro hemp
    rw [List.isEmpty_iff] at hemp
    rw [hemp] at hk
    simp at hk
  rw [FlowStep.expandedParameters] at h ⊢
  simp only [hne, if_neg, Bool.false_eq_true, not_false_iff, List.length_map] at h ⊢
  have hget : (List.map
        (fun combo => pyUpdate s.parameters ((s.sweeps.map (fun sw => sw.1)).zip combo))
        (prodAll (s.sweeps.map (fun sw => sw.2)))).getD i []
      = pyUpdate s.parameters
          ((s.sweeps.map (fun sw => sw.1)).zip ((prodAll (s.sweeps.map (fun sw => sw.2)))[i])) := by
    rw [List.getD_eq_getElem?_getD, List.getElem?_map, List.getElem?_eq_getElem h]
    rfl
  rw [hget]
  have hcombo : stepComboAt s i = (prodAll (s.sweeps.map (fun sw => sw.2)))[i] := by
    simp [stepComboAt, List.getD_eq_getElem?_getD, List.getElem?_eq_getElem h]
  have hmem : (prodAll (s.sweeps.map (fun sw => sw.2)))[i]
      ∈ prodAll (s.sweeps.map (fun sw => sw.2)) := List.getElem_mem h
  have hlen : ((prodAll (s.sweeps.map (fun sw => sw.2)))[i]).length = s.sweeps.length := by
    rw [length_of_mem_prodAll _ _ hmem, List.length_map]
  have hfst : ((s.sweeps.map (fun sw => sw.1)).zip
      ((prodAll (s.sweeps.map (fun sw => sw.2)))[i])).map (fun kv => kv.1)
      = s.sweeps.map (fun sw => sw.1) := by
    rw [List.map_fst_zip]
    rw [hlen, List.length_map]
  constructor
  · rw [hcombo]
    apply alookup_pyUpdate_mem
    · rw [hfst]
      exact hnd
    · rw [hfst]
      exact hk
  · apply alookup_isSome_of_mem_keys
    rw [hcombo, hfst]
    exact hk

/-- Concrete step fixture for the C9 witness: `freq` is both fixed and
swept. -/
def c9Step : FlowStep :=
  ⟨"stress", "mprime", [("freq", Value.vint 0), ("cores", Value.vint 4)],
   [("freq", [Value.vint 1, Value.vint 2])]⟩

/-- Witness for C9: in the second invocation of the fixture step the
swept value 2 overrides the fixed value 0 of `freq`. -/
theorem expandedParameters_sweep_overrides_witness :
    alookup (c9Step.expandedParameters.getD 1 []) "freq" = some (Value.vint 2) :=
  ((expandedParameters_sweep_overrides c9Step (by decide) "freq" (by decide) 1
      (by decide)).1).trans rfl

/-! ## safety.py: hardware fingerprint matching -/

/-- Lower-casing of a string (Python `str.lower` on the ASCII names the
engine handles). -/
def lowerStr (s : String) : String := String.mk (s.toList.map Char.toLower)

/-- Substring test on character lists (Python `needle in hay`). -/
def containsSub (needle : List Char) : List Char → Bool
  | [] => needle.isEmpty
  | c :: t => needle.isPrefixOf (c :: t) || containsSub needle t

/-- Python `needle in hay` on strings. -/
def strIn (needle hay : String) : Bool := containsSub needle.toList hay.toList

/-- `HardwareFingerprint` (safety.py). -/
structure HardwareFingerprint where
  cpu_model : String
  total_cores : Option Int
  architecture : String
deriving Repr

/-- The match criteria of a safety profile after `_ensure_list`
normalization: the substring lists (absent ≙ empty) and optional core
bounds (already `int()`-converted). -/
structure MatchCriteria where
  cpu_model_contains : List String
  architecture_contains : List String
  min_cores : Option Int
  max_cores : Option Int
deriving Repr

/-- `_matches` (safety.py): reject when a nonempty `cpu_model_contains`
list has no case-insensitive substring match, when a nonempty
`architecture_contains` list has none, or when the known core count is
below `min_cores` or above `max_cores`; otherwise accept. -/
def matchesFp (c : MatchCriteria) (fp : HardwareFingerprint) : Bool :=
  let cpu := lowerStr fp.cpu_model
  let arch := lowerStr fp.architecture
  if !c.cpu_model_contains.isEmpty
      && !(c.cpu_model_contains.any (fun sub => strIn (lowerStr sub) cpu)) then false
  else if !c.architecture_contains.isEmpty
      && !(c.architecture_contains.any (fun sub => strIn (lowerStr sub) arch)) then false
  else if (match c.min_cores, fp.total_cores with
           | some mn, some tc => decide (tc < mn)
           | _, _ => false) then false
  else if (match c.max_cores, fp.total_cores with
           | some mx, some tc => decide (mx < tc)
           | _, _ => false) then false
  else true

/-- C5 (amended).  `_matches` accepts a fingerprint iff at least one
`cpu_model_contains` substring matches case-insensitively (or the list
is empty), at least one `architecture_contains` substring matches (or
the list is empty), and the core count, when known, is within any
declared `min_cores`/`max_cores`; an empty criteria set accepts every
fingerprint. -/
theorem matches_spec (c : MatchCriteria) (fp : HardwareFingerprint) :
    matchesFp c fp = true ↔
      ((c.cpu_model_contains = [] ∨ ∃ sub ∈ c.cpu_model_contains,
          strIn (lowerStr sub) (lowerStr fp.cpu_model) = true)
     ∧ (c.architecture_contains = [] ∨ ∃ sub ∈ c.architecture_contains,
          strIn (lowerStr sub) (lowerStr fp.architecture) = true)
     ∧ (∀ mn, c.min_cores = some mn → ∀ tc, fp.total_cores = some tc → mn ≤ tc)
     ∧ (∀ mx, c.max_cores = some mx → ∀ tc, fp.total_cores = some tc → tc ≤ mx)) := by
  rw [matchesFp]
  split_ifs with h1 h2 h3 h4
  · simp only [Bool.and_eq_true, Bool.not_eq_true', List.isEmpty_eq_false,
      List.any_eq_false] at h1
    simp only [false_iff]
    rintro ⟨hcpu | hcpu, -, -, -⟩
    · exact h1.1 hcpu
    · obtain ⟨sub, hs, hmatch⟩ := hcpu
      exact h1.2 sub hs hmatch
  · simp only [Bool.and_eq_true, Bool.not_eq_true', List.isEmpty_eq_false,
      List.any_eq_false] at h2
    simp only [false_iff]
    rintro ⟨-, harch | harch, -, -⟩
    · exact h2.1 harch
    · obtain ⟨sub, hs, hmatch⟩ := harch
      exact h2.2 sub hs hmatch
  · simp only [false_iff]
    rintro ⟨-, -, hmin, -⟩
    rcases hmn : c.min_cores with _ | mn <;> rcases htc : fp.total_cores with _ | tc <;>
      rw [hmn, htc] at h3 <;> simp at h3
    exact absurd (hmin mn hmn tc htc) (not_le_of_lt h3)
  · simp only [false_iff]
    rintro ⟨-, -, -, hmax⟩
    rcases hmx : c.max_cores with _ | mx <;> rcases htc : fp.total_cores with _ | tc <;>
      rw [hmx, htc] at h4 <;> simp at h4
    exact absurd (hmax mx hmx tc htc) (not_le_of_lt h4)
  · simp only [true_iff]
    simp only [Bool.and_eq_true, Bool.not_eq_true'] at h1 h2
    push_neg at h1 h2
    refine ⟨?_, ?_, ?_, ?_⟩
    · by_cases hcpu : c.cpu_model_contains = []
      · exact Or.inl hcpu
      · right
        have hne : c.cpu_model_contains.isEmpty = false := by
          simpa [List.isEmpty_eq_false] using hcpu
        cases hb : c.cpu_model_contains.any
            (fun sub => strIn (lowerStr sub) (lowerStr fp.cpu_model)) with
        | false => exact absurd hb (h1 hne)
        | true =>
          obtain ⟨sub, hs, hmatch⟩ := List.any_eq_true.mp hb
          exact ⟨sub, hs, hmatch⟩
    · by_cases harch : c.architecture_contains = []
      · exact Or.inl harch
      · right
        have hne : c.architecture_contains.isEmpty = false := by
          simpa [List.isEmpty_eq_false] using harch
        cases hb : c.architecture_contains.any
            (fun sub => strIn (lowerStr sub) (lowerStr fp.architecture)) with
        | false => exact absurd hb (h2 hne)
        | true =>
          obtain ⟨sub, hs, hmatch⟩ := List.any_eq_true.mp hb
          exact ⟨sub, hs, hmatch⟩
    · intro mn hmn tc htc
      rw [hmn, htc] at h3
      simpa using h3
    · intro mx hmx tc htc
      rw [hmx, htc] at h4
      simpa using h4

/-- Fixture fingerprint for C5: an EPYC machine. -/
def c5Fp : HardwareFingerprint := ⟨"AMD EPYC 9274F", some 16, "x86_64"⟩

/-- Fixture criteria for C5 listing two alternative model substrings. -/
def c5Criteria : MatchCriteria := ⟨["epyc", "xeon"], [], none, none⟩

/-- Counterexample to C5 as stated: the predicate accepts a fingerprint
even though not every `cpu_model_contains` substring matches — the code
requires only one match (`any`), not all. -/
theorem matches_any_counterexample :
    matchesFp c5Criteria c5Fp = true
  ∧ ¬ (∀ sub ∈ c5Criteria.cpu_model_contains,
        strIn (lowerStr sub) (lowerStr c5Fp.cpu_model) = true) := by
  refine ⟨by decide, ?_⟩
  intro hall
  have := hall "xeon" (by decide)
  exact absurd this (by decide)

/-- Witness for C5 at a concrete input: empty criteria accept every
fingerprint (here the fixture). -/
theorem matches_spec_witness :
    matchesFp ⟨[], [], none, none⟩ c5Fp = true :=
  (matches_spec ⟨[], [], none, none⟩ c5Fp).mpr
    ⟨Or.inl rfl, Or.inl rfl,
     fun mn hm => by simp at hm, fun mx hm => by simp at hm⟩

/-! ## adapters.py: manifests, command building and executable resolution -/

/-- `AdapterParameter` (adapters.py): one declared parameter's schema. -/
structure AdapterParameter where
  type : String
  allowed : Option (List Value)
  minimum : Option ℚ
  maximum : Option ℚ

/-- `AdapterParameter.validate` (adapters.py): the value must be in the
allowed set when one is declared, and for `integer`/`float` types must
coerce to a number within the declared minimum/maximum. -/
def AdapterParameter.validate (p : AdapterParameter) (nm : String) (v : Value) :
    Except Err Unit :=
  if (match p.allowed with | some al => !(al.contains v) | none => false) then
    .error (.validation ("adapter parameter " ++ nm ++ ": value not in allowed set"))
  else if p.type == "integer" || p.type == "float" then
    match v.toFloat? with
    | none => .error (.validation ("adapter parameter " ++ nm ++ " expects numeric value"))
    | some numeric =>
      if (match p.minimum with | some mn => decide (numeric < mn) | none => false) then
        .error (.validation ("adapter parameter " ++ nm ++ " below minimum"))
      else if (match p.maximum with | some mx => decide (mx < numeric) | none => false) then
        .error (.validation ("adapter parameter " ++ nm ++ " above maximum"))
      else .ok ()
  else .ok ()

/-- `AdapterManifest` (adapters.py).  Filesystem paths are embedded as
strings. -/
structure AdapterManifest where
  name : String
  path : String
  parameters : List (String × AdapterParameter)
  description : Option String
  args : List String

/-- `--key` flag with underscores replaced by dashes. -/
def dashFlag (k : String) : String :=
  "--" ++ String.mk (k.toList.map (fun c => if c = '_' then '-' else c))

/-- The argv fragment one supplied parameter contributes in
`build_command`: a boolean `true` emits the bare flag, `false` emits
nothing, any other value emits the flag followed by its string form. -/
def flagArgs (k : String) (v : Value) : List String :=
  match v with
  | .vbool b => if b then [dashFlag k] else []
  | other => [dashFlag k, other.pyStr]

/-- The validation loop of `build_command`: each supplied key with a
declared schema entry is validated; undeclared keys are skipped. -/
def validateSupplied (schema : List (String × AdapterParameter)) :
    List (String × Value) → Except Err Unit
  | [] => .ok ()
  | kv :: rest =>
    match alookup schema kv.1 with
    | some spec =>
      match spec.validate kv.1 kv.2 with
      | .ok _ => validateSupplied schema rest
      | .error e => .error e
    | none => validateSupplied schema rest

/-- `AdapterManifest.build_command` (adapters.py): validate the supplied
parameters against the schema, then emit manifest path, fixed args, and
per-key flags in parameter iteration order. -/
def AdapterManifest.buildCommand (m : AdapterManifest) (params : List (String × Value)) :
    Except Err (List String) :=
  match validateSupplied m.parameters params with
  | .error e => .error e
  | .ok _ =>
    .ok (m.path :: (m.args ++ List.flatten (params.map (fun kv => flagArgs kv.1 kv.2))))

theorem validateSupplied_ok (schema : List (String × AdapterParameter))
    (params : List (String × Value))
    (hv : ∀ kv ∈ params, ∀ spec, alookup schema kv.1 = some spec →
        spec.validate kv.1 kv.2 = Except.ok ()) :
    validateSupplied schema params = Except.ok () := by
  induction params with
  | nil => rfl
  | cons kv rest ih =>
    have hrest : ∀ kv2 ∈ rest, ∀ spec, alookup schema kv2.1 = some spec →
        spec.validate kv2.1 kv2.2 = Except.ok () :=
      fun kv2 h2 => hv kv2 (List.mem_cons_of_mem _ h2)
    rcases hlo : alookup schema kv.1 with _ | spec
    · simp [validateSupplied, hlo, ih hrest]
    · have hok := hv kv (List.mem_cons_self _ _) spec hlo
      simp [validateSupplied, hlo, hok, ih hrest]

/-- C6.  When every supplied parameter that has a declared schema entry
validates, `build_command` returns the argv of manifest path, fixed
args, then per supplied key (iteration order) a dashed `--key` flag —
bare for boolean true, absent for boolean false, flag plus string form
otherwise; keys absent from the schema are passed through without
validation (the hypothesis constrains declared keys only). -/
theorem buildCommand_spec (m : AdapterManifest) (params : List (String × Value))
    (hv : ∀ kv ∈ params, ∀ spec, alookup m.parameters kv.1 = some spec →
        spec.validate kv.1 kv.2 = Except.ok ()) :
    m.buildCommand params
      = Except.ok (m.path :: (m.args ++ List.flatten (params.map (fun kv => flagArgs kv.1 kv.2)))) := by
  rw [AdapterManifest.buildCommand, validateSupplied_ok m.parameters params hv]

/-- Fixture manifest for C6 mirroring the spec's round-trip example. -/
def c6Manifest : AdapterManifest :=
  ⟨"echo", "/usr/bin/python3",
   [("duration", ⟨"float", none, some 0, some 10⟩), ("message", ⟨"string", none, none, none⟩)],
   none, ["adapter_stub.py"]⟩

/-- Fixture parameters for C6: `duration=0.001`, `message="hello"`, plus
an undeclared boolean key. -/
def c6Params : List (String × Value) :=
  [("duration", Value.vfloat 1 3), ("message", Value.vstr "hello"),
   ("fast_mode", Value.vbool true)]

/-- Witness for C6: the fixture yields the expected argv, with the
boolean true parameter emitting a bare dashed flag. -/
theorem buildCommand_spec_witness :
    c6Manifest.buildCommand c6Params
      = Except.ok ["/usr/bin/python3", "adapter_stub.py",
                   "--duration", "0.001", "--message", "hello", "--fast-mode"] :=
  (buildCommand_spec c6Manifest c6Params (by
    intro kv hkv spec hspec
    simp only [c6Params, List.mem_cons, List.not_mem_nil, or_false] at hkv
    rcases hkv with rfl | rfl | rfl
    · have h2 : alookup c6Manifest.parameters ("duration", Value.vfloat 1 3).1
          = some ⟨"float", none, some 0, some 10⟩ := rfl
      rw [h2] at hspec
      injection hspec with hs
      subst hs
      rfl
    · have h2 : alookup c6Manifest.parameters ("message", Value.vstr "hello").1
          = some ⟨"string", none, none, none⟩ := rfl
      rw [h2] at hspec
      injection hspec with hs
      subst hs
      rfl
    · have h2 : alookup c6Manifest.parameters ("fast_mode", Value.vbool true).1 = none := rfl
      rw [h2] at hspec
      cases hspec)).trans (by rfl)

/-- The pre-spawn executable resolution of `AdapterExecutor.run`
(adapters.py lines 130-140), parameterized by the filesystem facts it
consults: `which` abstracts `shutil.which` (the executable search path),
`isAbsolute`/`existsOnDisk` abstract `manifest.path.is_absolute()` and
`manifest.path.exists()`, and `path` is `command[0] = str(manifest.path)`
from `build_command`.  Returns the argv head that would be spawned, or
the `AdapterExecutionError` raised before spawning. -/
def resolveCommand0 (which : String → Option String) (isAbsolute : Bool)
    (existsOnDisk : Bool) (path : String) : Except Err String :=
  let c0 := path
  let executable : Option String := if isAbsolute then which c0 else some c0
  if isAbsolute && !existsOnDisk then
    .error (.execution "adapter path not found")
  else if isAbsolute then .ok path
  else
    match executable with
    | some e => if e.isEmpty then .error (.execution "adapter executable not found") else .ok e
    | none => .error (.execution "adapter executable not found")

/-- C7 at the failing input: a relative adapter name is passed through
unresolved — the search path (`which`) is never consulted, whether or
not it could resolve the name, and no pre-spawn error is raised even
when it cannot; only the absolute-path existence check of the claim
behaves as specified. -/
theorem resolve_relative_unresolved :
    resolveCommand0 (fun _ => none) false true "mprime_stub" = Except.ok "mprime_stub"
  ∧ resolveCommand0 (fun _ => some "/usr/bin/mprime_stub") false true "mprime_stub"
      = Except.ok "mprime_stub"
  ∧ resolveCommand0 (fun _ => none) true false "/opt/diags/mprime"
      = Except.error (.execution "adapter path not found") :=
  ⟨rfl, rfl, rfl⟩

/-! ## artifacts.py: sanitizing and capture-file naming -/

/-- A character allowed by the sanitizer's character class
`[A-Za-z0-9_.-]`. -/
def isAllowedChar (c : Char) : Bool :=
  (decide ('A' ≤ c) && decide (c ≤ 'Z')) || (decide ('a' ≤ c) && decide (c ≤ 'z'))
    || (decide ('0' ≤ c) && decide (c ≤ '9')) || c = '_' || c = '.' || c = '-'

/-- Strip characters satisfying `p` from both ends (Python `str.strip`). -/
def pyStrip (cs : List Char) (p : Char → Bool) : List Char :=
  ((cs.dropWhile p).reverse.dropWhile p).reverse

/-- Replace each maximal run of disallowed characters by a single `-`
(the regex substitution in `sanitize`); `prevBad` records whether the
previous character was part of a disallowed run. -/
def collapseRuns (prevBad : Bool) : List Char → List Char
  | [] => []
  | c :: rest =>
    if isAllowedChar c then c :: collapseRuns false rest
    else if prevBad then collapseRuns true rest
    else '-' :: collapseRuns true rest

/-- `sanitize` (artifacts.py): strip surrounding whitespace, collapse
disallowed-character runs to `-`, strip `-` from both ends, lower-case. -/
def sanitize (name : String) : String :=
  let stripped := pyStrip name.toList (fun c => c.isWhitespace)
  let collapsed := collapseRuns false stripped
  let trimmed := pyStrip collapsed (fun c => decide (c = '-'))
  String.mk (trimmed.map Char.toLower)

/-- Zero-padded two-digit rendering of a number (Python `f"{n:02d}"`). -/
def pad2 (n : Nat) : String := if n < 10 then "0" ++ natStr n else natStr n

/-- `RunPaths` (artifacts.py); paths are embedded as `/`-joined strings. -/
structure RunPaths where
  parent_id : String
  base_dir : String

/-- `RunPaths.parent_dir`. -/
def RunPaths.parentDir (rp : RunPaths) : String := rp.base_dir ++ "/" ++ rp.parent_id

/-- `RunPaths.subrun_dir`. -/
def RunPaths.subrunDir (rp : RunPaths) (subrunId : String) : String :=
  rp.parentDir ++ "/subruns/" ++ subrunId

/-- The capture-file stem shared by `step_stdout` and `step_stderr`:
zero-padded step index, underscore, sanitized step name, and — only when
the invocation index is truthy (nonzero) — an underscore and the
zero-padded invocation index. -/
def stepFileSuffix (stepName : String) (index invocation : Nat) : String :=
  let suffix := pad2 index ++ "_" ++ sanitize stepName
  if invocation ≠ 0 then suffix ++ "_" ++ pad2 invocation else suffix

/-- `RunPaths.step_stdout`. -/
def RunPaths.stepStdout (rp : RunPaths) (subrunId stepName : String)
    (index invocation : Nat) : String :=
  rp.subrunDir subrunId ++ "/stdout/" ++ stepFileSuffix stepName index invocation ++ ".log"

/-- `RunPaths.step_stderr`. -/
def RunPaths.stepStderr (rp : RunPaths) (subrunId stepName : String)
    (index invocation : Nat) : String :=
  rp.subrunDir subrunId ++ "/stderr/" ++ stepFileSuffix stepName index invocation ++ ".log"

/-- The stdout capture paths chosen for one step's invocations by
`Runner._execute_subrun` (runner.py lines 236-253): invocation indices
are enumerated from 0. -/
def subrunStdoutNames (rp : RunPaths) (subrunId stepName : String)
    (stepIndex n : Nat) : List String :=
  (List.range n).map (fun inv => rp.stepStdout subrunId stepName stepIndex inv)

/-- Fixture run paths for C8. -/
def c8Paths : RunPaths := ⟨"rr-20260101T000000Z-abc", "runs"⟩

/-- Counterexample to C8 as stated: for a step with two invocations the
first invocation's stdout capture is `00_stress.log`, without the
`_00` invocation suffix the claim requires for every invocation of a
multi-invocation step. -/
theorem step_capture_first_invocation_unsuffixed :
    subrunStdoutNames c8Paths "rr-20260101T000000Z-abc-s00" "stress" 0 2
      = ["runs/rr-20260101T000000Z-abc/subruns/rr-20260101T000000Z-abc-s00/stdout/00_stress.log",
         "runs/rr-20260101T000000Z-abc/subruns/rr-20260101T000000Z-abc-s00/stdout/00_stress_01.log"]
  ∧ ("runs/rr-20260101T000000Z-abc/subruns/rr-20260101T000000Z-abc-s00/stdout/00_stress.log" : String)
      ≠ "runs/rr-20260101T000000Z-abc/subruns/rr-20260101T000000Z-abc-s00/stdout/00_stress_00.log" := by
  refine ⟨by rfl, by decide⟩

/-- C8 (amended).  Capture files are named by the zero-padded step index,
an underscore and the sanitized step name, with an underscore and the
zero-padded invocation index appended exactly when the invocation index
is nonzero — the first invocation (index 0) of any step, including
multi-invocation steps, carries no invocation suffix. -/
theorem step_capture_naming (rp : RunPaths) (subrunId stepName : String)
    (stepIndex n inv : Nat) (h : inv < n) :
    (subrunStdoutNames rp subrunId stepName stepIndex n).getD inv ""
        = rp.subrunDir subrunId ++ "/stdout/"
          ++ (pad2 stepIndex ++ "_" ++ sanitize stepName
              ++ (if inv = 0 then "" else "_" ++ pad2 inv) ++ ".log")
  ∧ rp.stepStderr subrunId stepName stepIndex inv
        = rp.subrunDir subrunId ++ "/stderr/"
          ++ (pad2 stepIndex ++ "_" ++ sanitize stepName
              ++ (if inv = 0 then "" else "_" ++ pad2 inv) ++ ".log") := by
  have hget : (subrunStdoutNames rp subrunId stepName stepIndex n).getD inv ""
      = rp.stepStdout subrunId stepName stepIndex inv := by
    rw [subrunStdoutNames, List.getD_eq_getElem?_getD, List.getElem?_map,
      List.getElem?_range h]
    rfl
  rw [hget]
  by_cases hinv : inv = 0
  · subst hinv
    simp [RunPaths.stepStdout, RunPaths.stepStderr, stepFileSuffix, String.append_assoc]
  · simp [RunPaths.stepStdout, RunPaths.stepStderr, stepFileSuffix, hinv, String.append_assoc]

/-- Witness for C8: the amended naming at concrete indices — invocation 2
of step 1 gains the `_02` suffix. -/
theorem step_capture_naming_witness :
    (subrunStdoutNames c8Paths "sub" "stress" 1 3).getD 2 ""
      = c8Paths.subrunDir "sub" ++ "/stdout/"
        ++ (pad2 1 ++ "_" ++ sanitize "stress" ++ ("_" ++ pad2 2) ++ ".log") := by
  have h := (step_capture_naming c8Paths "sub" "stress" 1 3 2 (by decide)).1
  simpa using h

/-! ## runner.py: planning -/

/-- `StepPlan` (runner.py). -/
structure StepPlan where
  step : FlowStep
  invocations : List (List (String × Value))
  margin : List (String × Value)

/-- `SubRunPlan` (runner.py). -/
structure SubRunPlan where
  identifier : String
  margin_point : MarginPoint
  steps : List StepPlan

/-- `RunPlan` (runner.py).  The bookkeeping path/source fields
(`flow_path`, `margin_path`, `safety_source`), which planning merely
copies into the record, are not modelled. -/
structure RunPlan where
  parent_id : String
  flow : FlowDefinition
  margin_profile : MarginProfile
  safety_policy : SafetyPolicy
  seed : Int
  subruns : List SubRunPlan

/-- `_default_margin_profile` (runner.py): a single `default` target with
no fixed values, sweeps or jitter. -/
def defaultMarginProfile : MarginProfile := ⟨[], none, [("default", ⟨[], [], none⟩)]⟩

/-- `_apply_margin_for_step` (runner.py): merge the point's `default`
target values with its adapter-named target values (adapter wins on
collision), skipping `"jitter"` keys. -/
def applyMarginForStep (point : MarginPoint) (adapterName : String) :
    List (String × Value) :=
  let defaultValues := (alookup point.values "default").getD []
  let adapterValues := (alookup point.values adapterName).getD []
  (defaultValues ++ adapterValues).foldl
    (fun acc kv => if kv.1 = "jitter" then acc else pyInsert acc kv.1 kv.2) []

/-- `_validate_safety` (runner.py): validate every entry against the
policy, skipping entries named `"jitter"`. -/
def validateSafetyValues (policy : SafetyPolicy) : List (String × Value) → Except Err Unit
  | [] => .ok ()
  | kv :: rest =>
    if kv.1 = "jitter" then validateSafetyValues policy rest
    else
      match policy.validateValue kv.1 kv.2 with
      | .ok _ => validateSafetyValues policy rest
      | .error e => .error e

/-- The per-parameter validation loop of `Runner.plan` (line 131-132):
each fixed step parameter is validated as a singleton mapping. -/
def validateParamsSingly (policy : SafetyPolicy) : List (String × Value) → Except Err Unit
  | [] => .ok ()
  | kv :: rest =>
    match validateSafetyValues policy [kv] with
    | .ok _ => validateParamsSingly policy rest
    | .error e => .error e

/-- The per-sweep validation loop of `Runner.plan` (line 133-134): each
sweep's full value list is validated as a singleton mapping. -/
def validateSweepsSingly (policy : SafetyPolicy) : List (String × List Value) → Except Err Unit
  | [] => .ok ()
  | sw :: rest =>
    match validateSafetyValues policy [(sw.1, Value.vlist sw.2)] with
    | .ok _ => validateSweepsSingly policy rest
    | .error e => .error e

/-- The per-target validation loop of `Runner.plan` (line 124-125): every
target's combined values are validated. -/
def validatePointValues (policy : SafetyPolicy) :
    List (String × List (String × Value)) → Except Err Unit
  | [] => .ok ()
  | tv :: rest =>
    match validateSafetyValues policy tv.2 with
    | .ok _ => validatePointValues policy rest
    | .error e => .error e

/-- Error-propagating map (the implicit semantics of a Python `for` loop
whose body may raise). -/
def mapE {α β : Type} (f : α → Except Err β) : List α → Except Err (List β)
  | [] => .ok []
  | x :: rest =>
    match f x with
    | .error e => .error e
    | .ok y =>
      match mapE f rest with
      | .error e => .error e
      | .ok ys => .ok (y :: ys)

/-- Error-propagating map with a running index (Python
`for index, x in enumerate(...)`). -/
def mapIdxE {α β : Type} (f : Nat → α → Except Err β) : Nat → List α → Except Err (List β)
  | _, [] => .ok []
  | i, x :: rest =>
    match f i x with
    | .error e => .error e
    | .ok y =>
      match mapIdxE f (i + 1) rest with
      | .error e => .error e
      | .ok ys => .ok (y :: ys)

/-- The per-step body of `Runner.plan`'s inner loop (lines 128-136):
resolve the step margin, validate it, validate each fixed parameter and
each sweep list, then expand the invocation list. -/
def planStep (safety : SafetyPolicy) (point : MarginPoint) (step : FlowStep) :
    Except Err StepPlan :=
  let stepMargin := applyMarginForStep point step.adapter
  match validateSafetyValues safety stepMargin with
  | .error e => .error e
  | .ok _ =>
    match validateParamsSingly safety step.parameters with
    | .error e => .error e
    | .ok _ =>
      match validateSweepsSingly safety step.sweeps with
      | .error e => .error e
      | .ok _ => .ok ⟨step, step.expandedParameters, stepMargin⟩

/-- The per-point body of `Runner.plan`'s outer loop (lines 123-137):
validate every target's values, then plan every flow step. -/
def planSubrun (safety : SafetyPolicy) (parentId : String) (steps : List FlowStep)
    (index : Nat) (point : MarginPoint) : Except Err SubRunPlan :=
  match validatePointValues safety point.values with
  | .error e => .error e
  | .ok _ =>
    match mapE (planStep safety point) steps with
    | .error e => .error e
    | .ok stepPlans => .ok ⟨parentId ++ "-s" ++ pad2 index, point, stepPlans⟩

/-- `Runner.plan` (runner.py).  `parentId` abstracts
`_generate_parent_run_id` (wall clock plus hash) and `timeSeed`
abstracts the `int(time.time())` fallback of `ensure_seed`; config
loading happens before this logic and the in-memory structures are
passed in.  Planning performs no filesystem or process effect: it
returns either a complete `RunPlan` or the first validation error. -/
def plan (parentId : String) (timeSeed : Int) (flow : FlowDefinition)
    (marginProfile : Option MarginProfile) (safety : SafetyPolicy) : Except Err RunPlan :=
  let profile := marginProfile.getD defaultMarginProfile
  let seed := profile.global_seed.getD timeSeed
  let points := profile.expandPoints
  match mapIdxE (fun idx point => planSubrun safety parentId flow.steps idx point) 0 points with
  | .error e => .error e
  | .ok subruns => .ok ⟨parentId, flow, profile, safety, seed, subruns⟩

theorem validateSafetyValues_ok_iff (policy : SafetyPolicy) (vals : List (String × Value)) :
    validateSafetyValues policy vals = Except.ok () ↔
      ∀ kv ∈ vals, kv.1 = "jitter" ∨ policy.validateValue kv.1 kv.2 = Except.ok () := by
  induction vals with
  | nil => simp [validateSafetyValues]
  | cons kv rest ih =>
    have hunf : validateSafetyValues policy (kv :: rest)
        = if kv.1 = "jitter" then validateSafetyValues policy rest
          else match policy.validateValue kv.1 kv.2 with
            | .ok _ => validateSafetyValues policy rest
            | .error e => Except.error e := rfl
    by_cases hj : kv.1 = "jitter"
    · rw [hunf, if_pos hj]
      simp only [List.mem_cons]
      rw [ih]
      constructor
      · intro hall kv2 h2
        rcases h2 with rfl | h2
        · exact Or.inl hj
        · exact hall kv2 h2
      · intro hall kv2 h2
        exact hall kv2 (Or.inr h2)
    · rw [hunf, if_neg hj]
      rcases hv : policy.validateValue kv.1 kv.2 with e | u
      · simp only [List.mem_cons]
        constructor
        · intro hh
          cases hh
        · intro hall
          rcases hall kv (Or.inl rfl) with hh | hh
          · exact absurd hh hj
          · rw [hv] at hh
            cases hh
      · obtain rfl : u = () := rfl
        simp only [List.mem_cons]
        rw [ih]
        constructor
        · intro hall kv2 h2
          rcases h2 with rfl | h2
          · exact Or.inr hv
          · exact hall kv2 h2
        · intro hall kv2 h2
          exact hall kv2 (Or.inr h2)

theorem validateParamsSingly_ok_iff (policy : SafetyPolicy) (params : List (String × Value)) :
    validateParamsSingly policy params = Except.ok () ↔
      ∀ kv ∈ params, kv.1 = "jitter" ∨ policy.validateValue kv.1 kv.2 = Except.ok () := by
  induction params with
  | nil => simp [validateParamsSingly]
  | cons kv rest ih =>
    have hsingle : validateSafetyValues policy [kv] = Except.ok () ↔
        (kv.1 = "jitter" ∨ policy.validateValue kv.1 kv.2 = Except.ok ()) := by
      rw [validateSafetyValues_ok_iff]
      constructor
      · intro hall
        exact hall kv (List.mem_singleton.mpr rfl)
      · intro h kv2 h2
        rw [List.mem_singleton] at h2
        subst h2
        exact h
    rcases hv : validateSafetyValues policy [kv] with e | u
    · simp only [validateParamsSingly, hv, List.mem_cons]
      constructor
      · intro hh
        cases hh
      · intro hall
        have := hsingle.mpr (hall kv (Or.inl rfl))
        rw [hv] at this
        cases this
    · obtain rfl : u = () := rfl
      simp only [validateParamsSingly, hv, List.mem_cons]
      rw [ih]
      constructor
      · intro hall kv2 h2
        rcases h2 with rfl | h2
        · exact hsingle.mp hv
        · exact hall kv2 h2
      · intro hall kv2 h2
        exact hall kv2 (Or.inr h2)

theorem validateSweepsSingly_ok_iff (policy : SafetyPolicy) (sweeps : List (String × List Value)) :
    validateSweepsSingly policy sweeps = Except.ok () ↔
      ∀ sw ∈ sweeps, sw.1 = "jitter"
        ∨ policy.validateValue sw.1 (Value.vlist sw.2) = Except.ok () := by
  induction sweeps with
  | nil => simp [validateSweepsSingly]
  | cons sw rest ih =>
    have hsingle : validateSafetyValues policy [(sw.1, Value.vlist sw.2)] = Except.ok () ↔
        (sw.1 = "jitter" ∨ policy.validateValue sw.1 (Value.vlist sw.2) = Except.ok ()) := by
      rw [validateSafetyValues_ok_iff]
      constructor
      · intro hall
        exact hall (sw.1, Value.vlist sw.2) (List.mem_singleton.mpr rfl)
      · intro h kv2 h2
        rw [List.mem_singleton] at h2
        subst h2
        exact h
    rcases hv : validateSafetyValues policy [(sw.1, Value.vlist sw.2)] with e | u
    · simp only [validateSweepsSingly, hv, List.mem_cons]
      constructor
      · intro hh
        cases hh
      · intro hall
        have := hsingle.mpr (hall sw (Or.inl rfl))
        rw [hv] at this
        cases this
    · obtain rfl : u = () := rfl
      simp only [validateSweepsSingly, hv, List.mem_cons]
      rw [ih]
      constructor
      · intro hall sw2 h2
        rcases h2 with rfl | h2
        · exact hsingle.mp hv
        · exact hall sw2 h2
      · intro hall sw2 h2
        exact hall sw2 (Or.inr h2)

theorem validatePointValues_ok (policy : SafetyPolicy)
    (vals : List (String × List (String × Value)))
    (hok : validatePointValues policy vals = Except.ok ()) :
    ∀ tv ∈ vals, validateSafetyValues policy tv.2 = Except.ok () := by
  induction vals with
  | nil => intro tv h; cases h
  | cons tv0 rest ih =>
    intro tv h
    rcases hv : validateSafetyValues policy tv0.2 with e | u
    · rw [validatePointValues, hv] at hok
      cases hok
    · obtain rfl : u = () := rfl
      rw [validatePointValues, hv] at hok
      rcases List.mem_cons.mp h with rfl | h2
      · exact hv
      · exact ih hok tv h2

theorem mapE_ok_forall {α β : Type} (f : α → Except Err β) (l : List α) (ys : List β)
    (hok : mapE f l = Except.ok ys) :
    ys.length = l.length ∧ ∀ x ∈ l, ∃ y, f x = Except.ok y := by
  induction l generalizing ys with
  | nil =>
    rw [mapE] at hok
    injection hok with h
    subst h
    exact ⟨rfl, fun x h => absurd h (List.not_mem_nil x)⟩
  | cons x0 rest ih =>
    rcases hf : f x0 with e | y0
    · rw [mapE, hf] at hok
      cases hok
    · rw [mapE, hf] at hok
      rcases hrest : mapE f rest with e | ys0
      · rw [hrest] at hok
        cases hok
      · rw [hrest] at hok
        injection hok with h
        subst h
        obtain ⟨hlen, hall⟩ := ih ys0 hrest
        refine ⟨by simp [hlen], ?_⟩
        intro x h
        rcases List.mem_cons.mp h with rfl | h2
        · exact ⟨y0, hf⟩
        · exact hall x h2

theorem mapIdxE_ok_forall {α β : Type} (f : Nat → α → Except Err β) (i : Nat) (l : List α)
    (ys : List β) (hok : mapIdxE f i l = Except.ok ys) :
    ys.length = l.length ∧ (∀ x ∈ l, ∃ j y, f j x = Except.ok y)
      ∧ ∀ y ∈ ys, ∃ j x, x ∈ l ∧ f j x = Except.ok y := by
  induction l generalizing i ys with
  | nil =>
    rw [mapIdxE] at hok
    injection hok with h
    subst h
    exact ⟨rfl, fun x h => absurd h (List.not_mem_nil x),
           fun y h => absurd h (List.not_mem_nil y)⟩
  | cons x0 rest ih =>
    rcases hf : f i x0 with e | y0
    · rw [mapIdxE, hf] at hok
      cases hok
    · rw [mapIdxE, hf] at hok
      rcases hrest : mapIdxE f (i + 1) rest with e | ys0
      · rw [hrest] at hok
        cases hok
      · rw [hrest] at hok
        injection hok with h
        subst h
        obtain ⟨hlen, hall, hback⟩ := ih (i + 1) ys0 hrest
        refine ⟨by simp [hlen], ?_, ?_⟩
        · intro x h
          rcases List.mem_cons.mp h with rfl | h2
          · exact ⟨i, y0, hf⟩
          · exact hall x h2
        · intro y h
          rcases List.mem_cons.mp h with rfl | h2
          · exact ⟨i, x0, List.mem_cons_self _ _, hf⟩
          · obtain ⟨j, x, hx, hfx⟩ := hback y h2
            exact ⟨j, x, List.mem_cons_of_mem _ hx, hfx⟩

/-- A safety violation among the values `Runner.plan` validates: a
non-`"jitter"` margin value of some expanded point, or — provided at
least one point exists so the step loop runs — a non-`"jitter"` fixed
step parameter or sweep value list failing policy validation. -/
def PlanViolation (flow : FlowDefinition) (profile : MarginProfile)
    (safety : SafetyPolicy) : Prop :=
  (∃ pt ∈ profile.expandPoints, ∃ tv ∈ pt.values, ∃ kv ∈ tv.2,
      kv.1 ≠ "jitter" ∧ exOk (safety.validateValue kv.1 kv.2) = false)
  ∨ (profile.expandPoints ≠ [] ∧ ∃ st ∈ flow.steps, ∃ kv ∈ st.parameters,
      kv.1 ≠ "jitter" ∧ exOk (safety.validateValue kv.1 kv.2) = false)
  ∨ (profile.expandPoints ≠ [] ∧ ∃ st ∈ flow.steps, ∃ sw ∈ st.sweeps,
      sw.1 ≠ "jitter" ∧ exOk (safety.validateValue sw.1 (Value.vlist sw.2)) = false)

theorem plan_ok_validations (parentId : String) (timeSeed : Int) (flow : FlowDefinition)
    (mp : Option MarginProfile) (safety : SafetyPolicy) (rp : RunPlan)
    (hok : plan parentId timeSeed flow mp safety = Except.ok rp) :
    rp.subruns.length = (mp.getD defaultMarginProfile).expandPoints.length
  ∧ (∀ sub ∈ rp.subruns, sub.steps.length = flow.steps.length)
  ∧ ∀ pt ∈ (mp.getD defaultMarginProfile).expandPoints,
      (∀ tv ∈ pt.values, validateSafetyValues safety tv.2 = Except.ok ())
      ∧ ∀ st ∈ flow.steps,
          validateParamsSingly safety st.parameters = Except.ok ()
          ∧ validateSweepsSingly safety st.sweeps = Except.ok () := by
  rcases hmap : mapIdxE
      (fun idx point => planSubrun safety parentId flow.steps idx point) 0
      ((mp.getD defaultMarginProfile).expandPoints) with e | subruns
  · rw [plan, hmap] at hok
    cases hok
  · rw [plan, hmap] at hok
    injection hok with h
    subst h
    obtain ⟨hlen, hall, hback⟩ := mapIdxE_ok_forall _ 0 _ _ hmap
    have hsubrunSteps : ∀ idx pt sub,
        planSubrun safety parentId flow.steps idx pt = Except.ok sub →
        sub.steps.length = flow.steps.length := by
      intro idx pt sub hps
      rcases hpv : validatePointValues safety pt.values with e | u
      · rw [planSubrun, hpv] at hps
        cases hps
      · obtain rfl : u = () := rfl
        rw [planSubrun, hpv] at hps
        rcases hme : mapE (planStep safety pt) flow.steps with e | sps
        · rw [hme] at hps
          cases hps
        · rw [hme] at hps
          injection hps with h2
          subst h2
          exact (mapE_ok_forall _ _ _ hme).1
    refine ⟨hlen, ?_, ?_⟩
    · intro sub hsub
      obtain ⟨j, pt, _, hps⟩ := hback sub hsub
      exact hsubrunSteps j pt sub hps
    · intro pt hpt
      obtain ⟨j, sub, hps⟩ := hall pt hpt
      rcases hpv : validatePointValues safety pt.values with e | u
      · rw [planSubrun, hpv] at hps
        cases hps
      · obtain rfl : u = () := rfl
        constructor
        · exact validatePointValues_ok safety pt.values hpv
        · rw [planSubrun, hpv] at hps
          rcases hme : mapE (planStep safety pt) flow.steps with e | sps
          · rw [hme] at hps
            cases hps
          · intro st hst
            obtain ⟨sp, hsp⟩ := (mapE_ok_forall _ _ _ hme).2 st hst
            rcases hm1 : validateSafetyValues safety (applyMarginForStep pt st.adapter)
                with e | u
            · rw [planStep, hm1] at hsp
              cases hsp
            · obtain rfl : u = () := rfl
              rw [planStep, hm1] at hsp
              rcases hm2 : validateParamsSingly safety st.parameters with e | u
              · rw [hm2] at hsp
                cases hsp
              · obtain rfl : u = () := rfl
                rw [hm2] at hsp
                rcases hm3 : validateSweepsSingly safety st.sweeps with e | u
                · rw [hm3] at hsp
                  cases hsp
                · obtain rfl : u = () := rfl
                  exact ⟨rfl, rfl⟩

/-- C1 (amended).  `Runner.plan` is all-or-nothing: any non-`"jitter"`
margin value, fixed step parameter or sweep value list failing safety
validation (for step parameters and sweeps, provided the profile
expands to at least one margin point, since the step loop runs once per
point) makes `plan` return a validation/safety error and no `RunPlan`
at all; conversely a returned plan is complete, with one sub-run per
margin point and one step plan per flow step.  Planning performs no
subprocess or filesystem effect by construction. -/
theorem plan_all_or_nothing (parentId : String) (timeSeed : Int) (flow : FlowDefinition)
    (mp : Option MarginProfile) (safety : SafetyPolicy) :
    (PlanViolation flow (mp.getD defaultMarginProfile) safety →
      ∃ e, plan parentId timeSeed flow mp safety = Except.error e)
  ∧ ∀ rp, plan parentId timeSeed flow mp safety = Except.ok rp →
      rp.subruns.length = (mp.getD defaultMarginProfile).expandPoints.length
      ∧ ∀ sub ∈ rp.subruns, sub.steps.length = flow.steps.length := by
  constructor
  · intro hviol
    rcases hplan : plan parentId timeSeed flow mp safety with e | rp
    · exact ⟨e, rfl⟩
    · exfalso
      obtain ⟨-, -, hvalid⟩ := plan_ok_validations parentId timeSeed flow mp safety rp hplan
      rcases hviol with ⟨pt, hpt, tv, htv, kv, hkv, hnj, hfail⟩ |
          ⟨hne, st, hst, kv, hkv, hnj, hfail⟩ | ⟨hne, st, hst, sw, hsw, hnj, hfail⟩
      · have hok := ((hvalid pt hpt).1 tv htv)
        rw [validateSafetyValues_ok_iff] at hok
        rcases hok kv hkv with hj | hv
        · exact hnj hj
        · rw [hv] at hfail
          cases hfail
      · obtain ⟨pt, hpt⟩ := List.exists_mem_of_ne_nil _ hne
        have hok := ((hvalid pt hpt).2 st hst).1
        rw [validateParamsSingly_ok_iff] at hok
        rcases hok kv hkv with hj | hv
        · exact hnj hj
        · rw [hv] at hfail
          cases hfail
      · obtain ⟨pt, hpt⟩ := List.exists_mem_of_ne_nil _ hne
        have hok := ((hvalid pt hpt).2 st hst).2
        rw [validateSweepsSingly_ok_iff] at hok
        rcases hok sw hsw with hj | hv
        · exact hnj hj
        · rw [hv] at hfail
          cases hfail
  · intro rp hok
    obtain ⟨h1, h2, -⟩ := plan_ok_validations parentId timeSeed flow mp safety rp hok
    exact ⟨h1, h2⟩

/-- C1 counterexample fixtures: a policy registering a bound named
`jitter` and a flow whose step fixes `jitter` to a violating value. -/
def c1PolJ : SafetyPolicy := ⟨[], [("jitter", ⟨some 0, some 1⟩)], []⟩

/-- C1 fixture flow with a fixed step parameter named `jitter`. -/
def c1FlowJ : FlowDefinition := ⟨[], [⟨"s1", "mprime", [("jitter", Value.vint 5)], []⟩]⟩

/-- C1 fixture margin profile whose only sweep has an empty value list,
so expansion yields zero points. -/
def c1ProfE : MarginProfile := ⟨[], none, [("default", ⟨[], [("vcore_mv", [])], none⟩)]⟩

/-- C1 fixture policy bounding `freq`. -/
def c1PolE : SafetyPolicy := ⟨[], [("freq", ⟨some 0, some 1⟩)], []⟩

/-- C1 fixture flow with a fixed step parameter `freq` violating the
bound of `c1PolE`. -/
def c1FlowE : FlowDefinition := ⟨[], [⟨"s1", "mprime", [("freq", Value.vint 5)], []⟩]⟩

/-- Counterexample to C1 as stated: (a) a fixed step parameter named
`jitter` violates its registered bound yet `plan` succeeds, because
`_validate_safety` skips `"jitter"` keys everywhere; (b) with a margin
sweep whose value list is empty, zero points are expanded, the step loop
never runs, and `plan` succeeds despite a fixed step parameter
violating a registered bound. -/
theorem plan_counterexample :
    exOk (plan "rr-x" 0 c1FlowJ none c1PolJ) = true
  ∧ exOk (SafetyPolicy.validateValue c1PolJ "jitter" (Value.vint 5)) = false
  ∧ exOk (plan "rr-y" 0 c1FlowE (some c1ProfE) c1PolE) = true
  ∧ MarginProfile.expandPoints c1ProfE = []
  ∧ exOk (SafetyPolicy.validateValue c1PolE "freq" (Value.vint 5)) = false := by
  refine ⟨?_, ?_, ?_, ?_, ?_⟩ <;> rfl

/-- C1 witness fixtures: a margin profile fixing `vcore_mv` to a value
violating the policy bound. -/
def c1ProfW : MarginProfile :=
  ⟨[], some 3, [("default", ⟨[("vcore_mv", Value.vint 1200)], [], none⟩)]⟩

/-- C1 witness policy bounding `vcore_mv` to 900-1000. -/
def c1PolW : SafetyPolicy := ⟨[], [("vcore_mv", ⟨some 900, some 1000⟩)], []⟩

/-- C1 witness flow with one parameterless step. -/
def c1FlowW : FlowDefinition := ⟨[], [⟨"stress", "mprime", [], []⟩]⟩

/-- Witness for C1: a concrete out-of-bounds margin value makes `plan`
return an error and no plan. -/
theorem plan_all_or_nothing_witness :
    ∃ e, plan "rr-w" 0 c1FlowW (some c1ProfW) c1PolW = Except.error e :=
  (plan_all_or_nothing "rr-w" 0 c1FlowW (some c1ProfW) c1PolW).1
    (Or.inl ⟨⟨"point-0", [("default", [("vcore_mv", Value.vint 1200)])], 3⟩,
      List.mem_singleton.mpr rfl,
      ("default", [("vcore_mv", Value.vint 1200)]), List.mem_singleton.mpr rfl,
      ("vcore_mv", Value.vint 1200), List.mem_singleton.mpr rfl, by decide, rfl⟩)

/-! ## runner.py: execution short-circuiting

`Runner._execute_subrun` drives each step invocation through
`AdapterExecutor.run`, whose outcome (exit 0 versus
`AdapterExecutionError`) is decided by the external adapter process.
The model abstracts those outcomes as `Bool`s supplied per invocation
(`true` = the invocation passed): a sub-run is a list of steps, each a
list of its invocations' outcomes. -/

/-- The inner invocation loop of `Runner._execute_subrun` (lines
236-304): one result is recorded per attempted invocation and the loop
breaks after the first failure. -/
def runInvs : List Bool → List Bool
  | [] => []
  | b :: rest => if b then true :: runInvs rest else [false]

/-- The step loop of `Runner._execute_subrun` (lines 235-306): after a
step whose invocations all passed the next step runs; a step containing
a failure ends the sub-run. -/
def execSubrunSteps : List (List Bool) → List Bool
  | [] => []
  | step :: rest =>
    let r := runInvs step
    if r.all (fun b => b) then r ++ execSubrunSteps rest else r

/-- The sub-run status recorded by `Runner._execute_subrun`: `PASS`
unless some recorded invocation failed. -/
def subrunStatus (outcomes : List (List Bool)) : String :=
  if (execSubrunSteps outcomes).all (fun b => b) then "PASS" else "FAIL"

/-- The sub-run loop of `Runner.execute` (lines 204-207): every sub-run
of the plan is executed unconditionally, each from its own outcomes
only. -/
def executeSubruns (subs : List (List (List Bool))) : List (List Bool × String) :=
  subs.map (fun outcomes => (execSubrunSteps outcomes, subrunStatus outcomes))

theorem runInvs_eq (l : List Bool) :
    runInvs l = l.take ((l.takeWhile (fun b => b)).length + 1) := by
  induction l with
  | nil => rfl
  | cons b rest ih =>
    cases b
    · simp [runInvs, List.takeWhile]
    · simp [runInvs, List.takeWhile, ih]

theorem takeWhile_of_all (l : List Bool) (h : l.all (fun b => b) = true) :
    l.takeWhile (fun b => b) = l := by
  induction l with
  | nil => rfl
  | cons b rest ih =>
    simp only [List.all_cons, Bool.and_eq_true] at h
    rw [h.1] at *
    simp [List.takeWhile, ih h.2]

theorem runInvs_of_all (l : List Bool) (h : l.all (fun b => b) = true) :
    runInvs l = l := by
  rw [runInvs_eq, takeWhile_of_all l h]
  exact List.take_of_length_le (by omega)

theorem runInvs_all (l : List Bool) :
    (runInvs l).all (fun b => b) = l.all (fun b => b) := by
  induction l with
  | nil => rfl
  | cons b rest ih =>
    cases b
    · simp [runInvs]
    · simp only [runInvs, if_pos]
      simp [ih]

theorem takeWhile_append_of_all (l m : List Bool) (h : l.all (fun b => b) = true) :
    (l ++ m).takeWhile (fun b => b) = l ++ m.takeWhile (fun b => b) := by
  induction l with
  | nil => rfl
  | cons b rest ih =>
    simp only [List.all_cons, Bool.and_eq_true] at h
    rw [h.1] at *
    simp [List.takeWhile, ih h.2]

theorem takeWhile_append_of_not_all (l m : List Bool) (h : l.all (fun b => b) = false) :
    (l ++ m).takeWhile (fun b => b) = l.takeWhile (fun b => b) := by
  induction l with
  | nil => simp at h
  | cons b rest ih =>
    cases b
    · simp [List.takeWhile]
    · simp only [List.all_cons, Bool.and_eq_true, true_and] at h
      simp [List.takeWhile, ih h]

theorem takeWhile_length_lt_of_not_all (l : List Bool) (h : l.all (fun b => b) = false) :
    (l.takeWhile (fun b => b)).length + 1 ≤ l.length := by
  induction l with
  | nil => simp at h
  | cons b rest ih =>
    cases b
    · simp [List.takeWhile]
    · simp only [List.all_cons, Bool.and_eq_true, true_and] at h
      simp only [List.takeWhile, List.length_cons]
      have := ih h
      omega

theorem execSubrunSteps_eq (sub : List (List Bool)) :
    execSubrunSteps sub
      = sub.flatten.take ((sub.flatten.takeWhile (fun b => b)).length + 1) := by
  induction sub with
  | nil => rfl
  | cons step rest ih =>
    rcases hall : step.all (fun b => b) with _ | _
    · have hr : (runInvs step).all (fun b => b) = false := by rw [runInvs_all, hall]
      rw [execSubrunSteps]
      rw [if_neg (by rw [hr]; exact Bool.false_ne_true)]
      rw [List.flatten_cons, takeWhile_append_of_not_all step rest.flatten hall]
      rw [List.take_append_of_le_length (takeWhile_length_lt_of_not_all step hall)]
      exact runInvs_eq step
    · have hr : (runInvs step).all (fun b => b) = true := by rw [runInvs_all, hall]
      rw [execSubrunSteps]
      rw [if_pos hr, runInvs_of_all step hall]
      rw [List.flatten_cons, takeWhile_append_of_all step rest.flatten hall]
      rw [List.length_append]
      have harith : step.length + (rest.flatten.takeWhile (fun b => b)).length + 1
          = step.length + ((rest.flatten.takeWhile (fun b => b)).length + 1) := by omega
      rw [harith, List.take_append]
      rw [ih]

/-- C2.  The executed sub-runs: every sub-run of the plan is executed and
its result depends only on its own outcomes (independence across
sub-runs); within a sub-run, the recorded invocation results are exactly
the flattened invocation sequence truncated after the first failure (so
the first failing invocation aborts the remaining invocations of its
step and all remaining steps, and the number of results recorded equals
the number of invocations attempted, the failing one included); the
recorded status is `PASS` exactly when every attempted invocation
passed, and `FAIL` otherwise. -/
theorem execute_short_circuit (subs : List (List (List Bool))) (j : Nat)
    (hj : j < subs.length) :
    (executeSubruns subs).length = subs.length
  ∧ (executeSubruns subs).getD j ([], "")
      = (execSubrunSteps (subs.getD j []), subrunStatus (subs.getD j []))
  ∧ ∀ sr : List (List Bool),
      execSubrunSteps sr
          = sr.flatten.take ((sr.flatten.takeWhile (fun b => b)).length + 1)
      ∧ (subrunStatus sr = "PASS" ↔ (execSubrunSteps sr).all (fun b => b) = true)
      ∧ (subrunStatus sr = "PASS" ∨ subrunStatus sr = "FAIL") := by
  refine ⟨by simp [executeSubruns], ?_, ?_⟩
  · rw [executeSubruns, List.getD_eq_getElem?_getD, List.getElem?_map,
      List.getElem?_eq_getElem hj]
    simp only [Option.map_some', Option.getD_some]
    rw [List.getD_eq_getElem?_getD, List.getElem?_eq_getElem hj]
    rfl
  · intro sr
    refine ⟨execSubrunSteps_eq sr, ?_, ?_⟩
    · rw [subrunStatus]
      rcases hall : (execSubrunSteps sr).all (fun b => b) with _ | _
      · simp
      · simp
    · rw [subrunStatus]
      rcases (execSubrunSteps sr).all (fun b => b) with _ | _
      · simp
      · simp

/-- C2 witness fixture: two sub-runs under one plan; in the first the
second invocation of the first step fails, the second sub-run is fully
passing. -/
def c2Subs : List (List (List Bool)) := [[[true, false, true], [true]], [[true], [true]]]

/-- Witness for C2: the failing sub-run records exactly the attempted
invocations (the failing one included) and status `FAIL`; the
subsequent sub-run still executes in full and reports `PASS`. -/
theorem execute_short_circuit_witness :
    (executeSubruns c2Subs).getD 0 ([], "") = ([true, false], "FAIL")
  ∧ (executeSubruns c2Subs).getD 1 ([], "") = ([true, true], "PASS") :=
  ⟨((execute_short_circuit c2Subs 0 (by decide)).2.1).trans rfl,
   ((execute_short_circuit c2Subs 1 (by decide)).2.1).trans rfl⟩

/-! ## runner.py: step environment -/

/-- The first-defined alternative of two optional values. -/
def firstSome {α : Type} (a b : Option α) : Option α :=
  match a with
  | some v => some v
  | none => b

theorem alookup_append2 {α : Type} (a b : List (String × α)) (k : String) :
    alookup (a ++ b) k = firstSome (alookup a k) (alookup b k) := by
  induction a with
  | nil => rfl
  | cons kv rest ih =>
    obtain ⟨k0, v0⟩ := kv
    by_cases h : k0 = k
    · simp [alookup, h, firstSome]
    · simp [alookup, h, ih]

theorem alookup_pyUpdate_rev {α : Type} (kvs : List (String × α)) :
    ∀ (m : List (String × α)) (k : String),
      alookup (pyUpdate m kvs) k = firstSome (alookup kvs.reverse k) (alookup m k) := by
  induction kvs with
  | nil => intro m k; rfl
  | cons kv rest ih =>
    obtain ⟨k0, v0⟩ := kv
    intro m k
    rw [pyUpdate_cons, ih]
    have hrev : ((k0, v0) :: rest).reverse = rest.reverse ++ [(k0, v0)] := by simp
    rw [hrev, alookup_append2]
    rcases h : alookup rest.reverse k with _ | v
    · by_cases hk : k0 = k
      · subst hk
        simp [firstSome, alookup, alookup_pyInsert_self]
      · simp [firstSome, alookup, hk,
          alookup_pyInsert_ne m k0 k v0 (fun hh => hk hh.symm)]
    · simp [firstSome]

/-- Uppercasing of a string (the `.upper()` applied to sanitized keys). -/
def upperStr (s : String) : String := String.mk (s.toList.map Char.toUpper)

/-- The `RR_*` assignments of `_build_step_environment` (runner.py lines
386-398), in program order: run id, sub-run id, adapter, step name, one
`RR_PARAM_<KEY>` per parameter, one `RR_MARGIN_<KEY>` per resolved
margin value, margin point id, global seed. -/
def synthPairs (parentId subId adapterName stepName : String)
    (params margin : List (String × Value)) (pointId : String) (seed : Int) :
    List (String × String) :=
  [("RR_RUN_ID", parentId), ("RR_SUB_RUN_ID", subId),
   ("RR_STEP_ADAPTER", adapterName), ("RR_STEP_NAME", stepName)]
  ++ params.map (fun kv => ("RR_PARAM_" ++ upperStr (sanitize kv.1), kv.2.pyStr))
  ++ margin.map (fun kv => ("RR_MARGIN_" ++ upperStr (sanitize kv.1), kv.2.pyStr))
  ++ [("RR_MARGIN_POINT", pointId), ("RR_GLOBAL_SEED", intStr seed)]

/-- `_build_step_environment` (runner.py): a copy of the process
environment (`dict(os.environ)`) successively updated with the `RR_*`
assignments. -/
def buildStepEnvironment (osEnviron : List (String × String))
    (parentId subId adapterName stepName : String)
    (params margin : List (String × Value)) (pointId : String) (seed : Int) :
    List (String × String) :=
  (synthPairs parentId subId adapterName stepName params margin pointId seed).foldl
    (fun acc kv => pyInsert acc kv.1 kv.2) osEnviron

/-- State-passing form of `_build_step_environment`: the process
environment is the state; the function reads it once (the
`dict(os.environ)` copy) and never writes it, returning it unchanged
alongside the child environment. -/
def buildStepEnvironmentS (parentId subId adapterName stepName : String)
    (params margin : List (String × Value)) (pointId : String) (seed : Int)
    (procEnv : List (String × String)) :
    (List (String × String)) × (List (String × String)) :=
  (buildStepEnvironment procEnv parentId subId adapterName stepName params margin
    pointId seed, procEnv)

/-- C10.  The child environment built for an adapter subprocess: every
inherited variable is still present; a synthesized `RR_*` variable takes
its synthesized value (the last assignment of that key), replacing any
inherited variable of the same name; keys not synthesized keep their
inherited values; and building the environment leaves the process
environment itself unchanged. -/
theorem buildStepEnvironment_spec (osEnviron : List (String × String))
    (parentId subId adapterName stepName : String)
    (params margin : List (String × Value)) (pointId : String) (seed : Int) :
    (∀ k, (alookup osEnviron k).isSome = true →
        (alookup (buildStepEnvironment osEnviron parentId subId adapterName stepName
          params margin pointId seed) k).isSome = true)
  ∧ (∀ k v, alookup (synthPairs parentId subId adapterName stepName params margin
        pointId seed).reverse k = some v →
        alookup (buildStepEnvironment osEnviron parentId subId adapterName stepName
          params margin pointId seed) k = some v)
  ∧ (∀ k, alookup (synthPairs parentId subId adapterName stepName params margin
        pointId seed).reverse k = none →
        alookup (buildStepEnvironment osEnviron parentId subId adapterName stepName
          params margin pointId seed) k = alookup osEnviron k)
  ∧ ∀ procEnv, (buildStepEnvironmentS parentId subId adapterName stepName params margin
        pointId seed procEnv).2 = procEnv := by
  have hmain : ∀ k,
      alookup (buildStepEnvironment osEnviron parentId subId adapterName stepName
        params margin pointId seed) k
      = firstSome
          (alookup (synthPairs parentId subId adapterName stepName params margin
            pointId seed).reverse k)
          (alookup osEnviron k) :=
    fun k => alookup_pyUpdate_rev
      (synthPairs parentId subId adapterName stepName params margin pointId seed)
      osEnviron k
  refine ⟨?_, ?_, ?_, fun procEnv => rfl⟩
  · intro k hk
    rw [hmain k]
    rcases halo : alookup (synthPairs parentId subId adapterName stepName params margin
        pointId seed).reverse k with _ | v
    · rw [firstSome]
      exact hk
    · rfl
  · intro k v hv
    rw [hmain k, hv]
    rfl
  · intro k hv
    rw [hmain k, hv]
    rfl

/-- C10 witness fixture: an inherited environment with a stale
`RR_RUN_ID`. -/
def c10Env : List (String × String) := [("PATH", "/usr/bin"), ("RR_RUN_ID", "stale")]

/-- Witness for C10: the synthesized run id replaces the stale inherited
one and the untouched `PATH` survives with its inherited value. -/
theorem buildStepEnvironment_spec_witness :
    alookup (buildStepEnvironment c10Env "rr-1" "rr-1-s00" "mprime" "stress"
        [("freq", Value.vint 2)] [("vcore_mv", Value.vint 950)] "point-0" 7) "RR_RUN_ID"
      = some "rr-1"
  ∧ alookup (buildStepEnvironment c10Env "rr-1" "rr-1-s00" "mprime" "stress"
        [("freq", Value.vint 2)] [("vcore_mv", Value.vint 950)] "point-0" 7) "PATH"
      = some "/usr/bin" :=
  ⟨(buildStepEnvironment_spec c10Env "rr-1" "rr-1-s00" "mprime" "stress"
      [("freq", Value.vint 2)] [("vcore_mv", Value.vint 950)] "point-0" 7).2.1
      "RR_RUN_ID" "rr-1" rfl,
   (buildStepEnvironment_spec c10Env "rr-1" "rr-1-s00" "mprime" "stress"
      [("freq", Value.vint 2)] [("vcore_mv", Value.vint 950)] "point-0" 7).2.2.1
      "PATH" rfl⟩

end RoadRunner
